import Mathlib

/-!
# Metering formulas of the `basic-linux-container` plan

A shallow embedding of the four formulas of the `memory` metric declared in
`lib/plugins/provisioning/src/plans/metering/basic-linux-container.js`
(`meter`, `accumulate`, `aggregate`, `summarize`).

Numbers are modelled as exact rationals: every `BigNumber` chain of the source
(`mul`, `add`, `sub`, `div`) is read as the corresponding exact operation and
the closing `toNumber()` as the identity, so rounding to a double is not part
of the model.  Where the rounding of the closing division of `summarize`
matters, `summarizeWith` takes that division as a parameter.  A JavaScript
value that may be `null` is an `Option`.
-/

namespace Abacus

/-- Measured usage handed to `meter`: the two measures of the plan and the
start time of the usage document. -/
structure Measured where
  instance_memory : ℚ
  running_instances : ℚ
  start : ℚ
  deriving DecidableEq, Repr

/-- Metered quantity `{ consuming, since }` produced by `meter`. -/
structure Metered where
  consuming : ℚ
  since : ℚ
  deriving DecidableEq, Repr

/-- Accumulated (or aggregated) value `{ consumed, consuming, since }`. -/
structure Accumulated where
  consumed : ℚ
  consuming : ℚ
  since : ℚ
  deriving DecidableEq, Repr

/-- The `meter` formula: memory in gigabytes times the number of running
instances, effective from the start of the usage. -/
def meter (m : Measured) : Metered :=
  { consuming := m.instance_memory / 1073741824 * m.running_instances
    since := m.start }

/-- The `accumulate` formula.  `none` is the `null` returned for usage whose
end lies outside of `[from, to)`. -/
def accumulate (a : Option Accumulated) (qty : Metered)
    (_start end_ from_ to_ : ℚ) : Option Accumulated :=
  if end_ < from_ ∨ end_ ≥ to_ then none
  else some
    { consumed :=
        match a with
        | some a => a.consuming * (qty.since - a.since) + a.consumed
        | none => 0
      consuming := qty.consuming
      since := qty.since }

/-- The `aggregate` formula. -/
def aggregate (a prev : Option Accumulated) (curr : Accumulated) : Accumulated :=
  let consuming : ℚ :=
    curr.consuming - (match prev with
      | some p => p.consuming
      | none => 0)
  match a with
  | some a =>
    { consumed :=
        consuming * max 0 (a.since - curr.since)
          + a.consuming * max 0 (curr.since - a.since) + a.consumed
      consuming := consuming + a.consuming
      since := max a.since curr.since }
  | none =>
    { consumed := 0
      consuming := consuming
      since := curr.since }

/-- The `summarize` formula. -/
def summarize (t : ℚ) (qty : Option Accumulated) (_from to_ : ℚ) : ℚ :=
  match qty with
  | some qty =>
    (qty.consuming * max 0 (min t to_ - qty.since) + qty.consumed) / 3600000
  | none => 0

/-- One delivery of a metered quantity to `accumulate`: the quantity and the
four time arguments of the call. -/
structure Delivery where
  qty : Metered
  start : ℚ
  end_ : ℚ
  from_ : ℚ
  to_ : ℚ
  deriving DecidableEq, Repr

/-- The event of a delivery falls inside the slot: `from ≤ end < to`. -/
def Delivery.inSlot (d : Delivery) : Prop := d.from_ ≤ d.end_ ∧ d.end_ < d.to_

instance (d : Delivery) : Decidable d.inSlot := by
  unfold Delivery.inSlot; infer_instance

/-- Folding `accumulate` over a list of deliveries, left to right, each result
being the previous value of the next call. -/
def accumulateAll (a : Option Accumulated) (ds : List Delivery) : Option Accumulated :=
  ds.foldl (fun a d => accumulate a d.qty d.start d.end_ d.from_ d.to_) a

/-- One instance update handed to `aggregate`: the prior value of the instance
(possibly `null`) and its current value. -/
structure Update where
  prev : Option Accumulated
  curr : Accumulated
  deriving DecidableEq, Repr

/-- Folding `aggregate` over a list of instance updates, left to right. -/
def aggregateAll (a : Option Accumulated) (us : List Update) : Option Accumulated :=
  us.foldl (fun a u => some (aggregate a u.prev u.curr)) a

/-- Rate integrated over time along a list of metered quantities: the sum over
consecutive quantities of the rate of the first times the time elapsed until
the second. -/
def integral (qs : List Metered) : ℚ :=
  (List.zipWith (fun q q' => q.consuming * (q'.since - q.since)) qs qs.tail).sum

/-- A delivery of rate 1 effective at time 1, inside the slot `[0, 10)`. -/
def earlyDelivery : Delivery :=
  { qty := { consuming := 1, since := 1 }, start := 1, end_ := 1, from_ := 0, to_ := 10 }

/-- A delivery of rate 2 effective at time 3, inside the slot `[0, 10)`. -/
def lateDelivery : Delivery :=
  { qty := { consuming := 2, since := 3 }, start := 3, end_ := 3, from_ := 0, to_ := 10 }

/-- The net contribution of an instance update, the local constant
`consuming` of `aggregate`: `curr.consuming - (prev ? prev.consuming : 0)`. -/
def delta (prev : Option Accumulated) (curr : Accumulated) : ℚ :=
  curr.consuming - (match prev with
    | some p => p.consuming
    | none => 0)

/-- The update of an instance reporting for the first time: no prior value. -/
def Update.first (curr : Accumulated) : Update := { prev := none, curr := curr }

/-! ### Pricing data of the `linux-container` resource

The data of `lib/stubs/account/src/resources/linux-container.js`. -/

/-- A price of a metric in one country. -/
structure Price where
  country : String
  price : ℚ
  deriving DecidableEq, Repr

/-- The prices of one metric of a plan. -/
structure MetricPrices where
  name : String
  prices : List Price
  deriving DecidableEq, Repr

/-- The priced metrics of one plan. -/
structure PlanPrices where
  plan_id : String
  metrics : List MetricPrices
  deriving DecidableEq, Repr

/-- The pricing document of a resource. -/
structure ResourcePrices where
  resource_id : String
  effective : ℕ
  plans : List PlanPrices
  deriving DecidableEq, Repr

/-- The exported pricing document of the `linux-container` resource. -/
def linux_container : ResourcePrices :=
  { resource_id := "linux-container"
    effective := 1420070400000
    plans := [
      { plan_id := "basic"
        metrics := [
          { name := "memory"
            prices := [
              { country := "USA", price := 0.1375 },
              { country := "EUR", price := 0.1375 },
              { country := "CAN", price := 0.1375 }] }] },
      { plan_id := "standard"
        metrics := [
          { name := "memory"
            prices := [
              { country := "USA", price := 0.1375 },
              { country := "EUR", price := 0.1375 },
              { country := "CAN", price := 0.1375 }] }] }] }

/-- Modelled from the spec: the price lookup by plan, metric and country
(`getPrice` of the pricing catalog), whose code is not among the sources.  It
returns every price entry of the document under the given three keys. -/
def priceEntries (r : ResourcePrices) (plan_id metric country : String) : List Price :=
  ((r.plans.filter fun p => p.plan_id = plan_id).flatMap fun p =>
    (p.metrics.filter fun m => m.name = metric).flatMap fun m =>
      m.prices.filter fun e => e.country = country)

/-- Modelled from the spec: the charge of a summarized quantity,
`charge = price × quantity`, whose code is not among the sources. -/
def charge (price quantity : ℚ) : ℚ := price * quantity

/-! ### The window check of the bridge integration test

`timeWindows`, `isWithinWindow` of `test/cf/bridge/src/test/test.js`. -/

/-- The UTC fields read from a JavaScript `Date`: `getUTCFullYear`,
`getUTCMonth`, `getUTCDate`, `getUTCHours`, `getUTCMinutes`, `getUTCSeconds`. -/
structure UTCDate where
  fullYear : ℤ
  month : ℕ
  date : ℕ
  hours : ℕ
  minutes : ℕ
  seconds : ℕ
  deriving DecidableEq, Repr

/-- The ranges of the UTC fields of a valid `Date`: month 0 to 11, day of
month 1 to 31, hour 0 to 23, minute and second 0 to 59. -/
def UTCDate.valid (d : UTCDate) : Prop :=
  d.month ≤ 11 ∧ 1 ≤ d.date ∧ d.date ≤ 31 ∧ d.hours ≤ 23 ∧ d.minutes ≤ 59 ∧ d.seconds ≤ 59

instance (d : UTCDate) : Decidable d.valid := by
  unfold UTCDate.valid; infer_instance

/-- The array `timescale` of `isWithinWindow`, indexed by the window
`[Second, Minute, Hour, Day, Month]`. -/
def timescale : Fin 5 → ℕ := ![1, 100, 10000, 1000000, 100000000]

/-- The inner function `dateUTCNumbify`: a timestamp as the number
`YYYYMMDDHHmmSS` of its UTC fields.  The `Date` constructor with its getters is
the parameter `utc`. -/
def dateUTCNumbify (utc : ℚ → UTCDate) (t : ℚ) : ℤ :=
  let d := utc t
  d.fullYear * 10000000000 + d.month * timescale 4
    + d.date * timescale 3 + d.hours * timescale 2
    + d.minutes * timescale 1 + d.seconds

/-- The function `isWithinWindow`: the two timestamps, divided down to the
resolution of the window, give the same number. -/
def isWithinWindow (utc : ℚ → UTCDate) (start end_ : ℚ) (timeWindow : Fin 5) : Bool :=
  decide (⌊(dateUTCNumbify utc end_ : ℚ) / (timescale timeWindow : ℚ)⌋
    - ⌊(dateUTCNumbify utc start : ℚ) / (timescale timeWindow : ℚ)⌋ = 0)

/-- The UTC fields of a timestamp in the first minute of 1 January 1970: only
the seconds vary. -/
def firstMinuteUTC (t : ℚ) : UTCDate :=
  { fullYear := 1970, month := 0, date := 1, hours := 0, minutes := 0
    seconds := (⌊t / 1000⌋ % 60).toNat }

/-! ### The closing division of `summarize` -/

/-- The `summarize` formula with the closing `.div(3600000).toNumber()` as a
parameter `div`: the decimal library that computes it is not part of the
repository.  The products and sums before it are exact in that library. -/
def summarizeWith (div : ℚ → ℚ → ℚ) (t : ℚ) (qty : Option Accumulated)
    (_from to_ : ℚ) : ℚ :=
  match qty with
  | some qty => div (qty.consuming * max 0 (min t to_ - qty.since) + qty.consumed) 3600000
  | none => 0

/-- Rounding to `dp` decimal places, a half rounded away from zero. -/
def roundHalfUp (dp : ℕ) (x : ℚ) : ℚ :=
  if 0 ≤ x then (⌊x * 10 ^ dp + 1 / 2⌋ : ℚ) / 10 ^ dp
  else -((⌊-x * 10 ^ dp + 1 / 2⌋ : ℚ) / 10 ^ dp)

/-- A division that returns the quotient rounded to 20 decimal places, a half
rounded away from zero: the default setting of the decimal library. -/
def div20 (x y : ℚ) : ℚ := roundHalfUp 20 (x / y)

/-- Three instances of rate 1 that report for the first time at time 0. -/
def threeUnitInstances : List Accumulated := [⟨0, 1, 0⟩, ⟨0, 1, 0⟩, ⟨0, 1, 0⟩]

/-! ## Claims about single calls -/

/-- C1: `accumulate` returns `null` exactly when `end < from` or `end ≥ to`;
in every other case the result is a non-null accumulated value. -/
theorem accumulate_null_iff (a : Option Accumulated) (qty : Metered)
    (start end_ from_ to_ : ℚ) :
    (accumulate a qty start end_ from_ to_ = none ↔ (end_ < from_ ∨ end_ ≥ to_)) ∧
    ((accumulate a qty start end_ from_ to_).isSome = true ↔
      ¬ (end_ < from_ ∨ end_ ≥ to_)) := by
  unfold accumulate
  by_cases h : end_ < from_ ∨ end_ ≥ to_
  · simp [h]
  · simp [h]

/-- C2: inside the slot (`from ≤ end < to`) `accumulate` on a non-null previous
value `a` returns `a.consuming * (qty.since - a.since) + a.consumed` as
`consumed` together with the rate and time of `qty`; on `null` it returns
`consumed = 0` with the rate and time of `qty`. -/
theorem accumulate_in_slot (a : Accumulated) (qty : Metered)
    (start end_ from_ to_ : ℚ) (h₁ : from_ ≤ end_) (h₂ : end_ < to_) :
    accumulate (some a) qty start end_ from_ to_ =
        some { consumed := a.consuming * (qty.since - a.since) + a.consumed
               consuming := qty.consuming
               since := qty.since } ∧
    accumulate none qty start end_ from_ to_ =
        some { consumed := 0, consuming := qty.consuming, since := qty.since } := by
  have h : ¬ (end_ < from_ ∨ end_ ≥ to_) := by
    rintro (h | h)
    · exact absurd h₁ (not_le.mpr h)
    · exact absurd h₂ (not_lt.mpr h)
  simp [accumulate, h]

theorem accumulate_in_slot_witness :
    ((0 : ℚ) ≤ 5 ∧ (5 : ℚ) < 10) ∧
    (accumulate (some ⟨7, 2, 100⟩) ⟨3, 130⟩ 0 5 0 10 =
        some { consumed := 2 * (130 - 100) + 7, consuming := 3, since := 130 } ∧
     accumulate none ⟨3, 130⟩ 0 5 0 10 =
        some { consumed := 0, consuming := 3, since := 130 }) :=
  ⟨by norm_num, accumulate_in_slot ⟨7, 2, 100⟩ ⟨3, 130⟩ 0 5 0 10 (by norm_num) (by norm_num)⟩

/-- C3: with a non-null previous aggregate `a`, `aggregate` yields
`consuming = a.consuming + delta` and `since = max a.since curr.since`, where
`delta` is `curr.consuming - prev.consuming` for a non-null `prev` and
`curr.consuming` for a null `prev`. -/
theorem aggregate_consuming_since (a curr : Accumulated) :
    (∀ p : Accumulated,
      (aggregate (some a) (some p) curr).consuming
          = a.consuming + (curr.consuming - p.consuming) ∧
      (aggregate (some a) (some p) curr).since = max a.since curr.since) ∧
    (aggregate (some a) none curr).consuming = a.consuming + curr.consuming ∧
    (aggregate (some a) none curr).since = max a.since curr.since := by
  refine ⟨fun p => ⟨?_, rfl⟩, ?_, rfl⟩
  · simp only [aggregate]; ring
  · simp only [aggregate]; ring

/-- C4 (as stated, refuted): the `consumed` of `aggregate` is not the old
combined rate over `max 0 (a.since - curr.since)` plus the new combined rate
over `max 0 (curr.since - a.since)` plus `a.consumed`.  For an aggregate of
rate 1 at time 0 and a first report of rate 1 at time 1 the code gives 1 while
the stated formula gives 2. -/
theorem aggregate_consumed_not_as_stated :
    (aggregate (some ⟨0, 1, 0⟩) none ⟨0, 1, 1⟩).consumed = 1 ∧
    (1 : ℚ) * max 0 (0 - 1) + (1 + (1 - 0)) * max 0 (1 - 0) + 0 = 2 ∧
    (aggregate (some ⟨0, 1, 0⟩) none ⟨0, 1, 1⟩).consumed ≠
      (1 : ℚ) * max 0 (0 - 1) + (1 + (1 - 0)) * max 0 (1 - 0) + 0 := by
  refine ⟨?_, ?_, ?_⟩ <;> norm_num [aggregate]

/-- C4 (amended): with a non-null previous aggregate `a` and
`delta = curr.consuming - (prev ? prev.consuming : 0)`, the `consumed` of
`aggregate` is `delta * max 0 (a.since - curr.since)` (the instance's net
contribution over the time it precedes the aggregate) plus
`a.consuming * max 0 (curr.since - a.since)` (the old combined rate over the
time the aggregate is advanced) plus `a.consumed`. -/
theorem aggregate_consumed (a curr : Accumulated) :
    (∀ p : Accumulated,
      (aggregate (some a) (some p) curr).consumed
        = (curr.consuming - p.consuming) * max 0 (a.since - curr.since)
          + a.consuming * max 0 (curr.since - a.since) + a.consumed) ∧
    (aggregate (some a) none curr).consumed
        = curr.consuming * max 0 (a.since - curr.since)
          + a.consuming * max 0 (curr.since - a.since) + a.consumed := by
  refine ⟨fun p => rfl, ?_⟩
  simp only [aggregate, sub_zero]

/-- C5: without a previous aggregate, `aggregate` returns `consumed = 0`,
`consuming = delta` and `since = curr.since`, where `delta` is
`curr.consuming - prev.consuming` for a non-null `prev` and `curr.consuming`
for a null `prev`. -/
theorem aggregate_first (curr : Accumulated) :
    (∀ p : Accumulated, aggregate none (some p) curr =
      { consumed := 0, consuming := curr.consuming - p.consuming, since := curr.since }) ∧
    aggregate none none curr =
      { consumed := 0, consuming := curr.consuming, since := curr.since } := by
  refine ⟨fun p => rfl, ?_⟩
  simp only [aggregate, sub_zero]

/-- C6: `summarize` of a non-null value is
`(consuming * max 0 (min t to - since) + consumed) / 3600000`, and `summarize`
of `null` is `0`. -/
theorem summarize_eq (t from_ to_ : ℚ) :
    (∀ qty : Accumulated, summarize t (some qty) from_ to_ =
      (qty.consuming * max 0 (min t to_ - qty.since) + qty.consumed) / 3600000) ∧
    summarize t none from_ to_ = 0 :=
  ⟨fun _ => rfl, rfl⟩

/-- C7: `meter` returns the instance memory divided by 1073741824 and
multiplied by the running instances as `consuming`, and the start time as
`since`; for 536870912 bytes and one running instance this is `0.5`. -/
theorem meter_eq (m : Measured) (t0 : ℚ) :
    meter m = { consuming := m.instance_memory / 1073741824 * m.running_instances
                since := m.start } ∧
    meter { instance_memory := 536870912, running_instances := 1, start := t0 } =
      { consuming := 1 / 2, since := t0 } := by
  refine ⟨rfl, ?_⟩
  simp only [meter, Metered.mk.injEq, and_true]
  norm_num

/-! ## Folding `accumulate` -/

theorem accumulate_some_of_inSlot (a : Option Accumulated) (d : Delivery) (h : d.inSlot) :
    accumulate a d.qty d.start d.end_ d.from_ d.to_ =
      some { consumed :=
               match a with
               | some a => a.consuming * (d.qty.since - a.since) + a.consumed
               | none => 0
             consuming := d.qty.consuming
             since := d.qty.since } := by
  have h' : ¬ (d.end_ < d.from_ ∨ d.end_ ≥ d.to_) := by
    rintro (h' | h')
    · exact absurd h.1 (not_le.mpr h')
    · exact absurd h.2 (not_lt.mpr h')
  simp [accumulate, h']

theorem accumulateAll_cons (a : Option Accumulated) (d : Delivery) (ds : List Delivery) :
    accumulateAll a (d :: ds) =
      accumulateAll (accumulate a d.qty d.start d.end_ d.from_ d.to_) ds := rfl

/-- Folding in-slot deliveries from a non-null value `a`: the rate of `a` and
of every delivery but the last is integrated until the next delivery, on top of
`a.consumed`; rate and time are those of the last delivery. -/
theorem accumulateAll_some_eq (ds : List Delivery) :
    ∀ (a : Accumulated) (d : Delivery), (∀ x ∈ d :: ds, x.inSlot) →
      accumulateAll (some a) (d :: ds) =
        some { consumed :=
                 a.consumed + integral (⟨a.consuming, a.since⟩ :: (d :: ds).map Delivery.qty)
               consuming := ((d :: ds).getLast (List.cons_ne_nil d ds)).qty.consuming
               since := ((d :: ds).getLast (List.cons_ne_nil d ds)).qty.since } := by
  induction ds with
  | nil =>
    intro a d h
    have hd : d.inSlot := h d (List.mem_cons_self d [])
    simp only [accumulateAll_cons, accumulate_some_of_inSlot _ d hd]
    simp [accumulateAll, integral]
    ring
  | cons e es ih =>
    intro a d h
    have hd : d.inSlot := h d (List.mem_cons_self d _)
    have hes : ∀ x ∈ e :: es, x.inSlot := fun x hx => h x (List.mem_cons_of_mem d hx)
    rw [accumulateAll_cons, accumulate_some_of_inSlot _ d hd, ih _ e hes]
    simp [integral]
    ring

/-- Folding in-slot deliveries that all carry the time `s`: `consumed` is fixed
by the first call and every later call adds the previous rate over no time. -/
theorem accumulateAll_consumed_same_since (s : ℚ) (ds : List Delivery) :
    ∀ (a : Option Accumulated) (d : Delivery),
      (∀ x ∈ d :: ds, x.inSlot ∧ x.qty.since = s) →
      (accumulateAll a (d :: ds)).map Accumulated.consumed =
        some (match a with
          | some a => a.consuming * (s - a.since) + a.consumed
          | none => 0) := by
  induction ds with
  | nil =>
    intro a d h
    obtain ⟨hd, hs⟩ := h d (List.mem_cons_self d [])
    simp [accumulateAll_cons, accumulate_some_of_inSlot _ d hd, accumulateAll, hs]
  | cons e es ih =>
    intro a d h
    obtain ⟨hd, hs⟩ := h d (List.mem_cons_self d _)
    have hes : ∀ x ∈ e :: es, x.inSlot ∧ x.qty.since = s :=
      fun x hx => h x (List.mem_cons_of_mem d hx)
    rw [accumulateAll_cons, accumulate_some_of_inSlot _ d hd, ih _ e hes]
    simp [hs]

/-- C8 (as stated, refuted): two in-slot deliveries, rate 1 at time 1 and
rate 2 at time 3.  Folded from `null` in order of `since` the final `consumed`
is `1 * (3 - 1) = 2`; folded in the other order it is `2 * (1 - 3) = -4`. -/
theorem accumulateAll_order_dependent :
    earlyDelivery.inSlot ∧ lateDelivery.inSlot ∧
    earlyDelivery.qty.since ≤ lateDelivery.qty.since ∧
    [lateDelivery, earlyDelivery].Perm [earlyDelivery, lateDelivery] ∧
    (accumulateAll none [earlyDelivery, lateDelivery]).map Accumulated.consumed = some 2 ∧
    (accumulateAll none [lateDelivery, earlyDelivery]).map Accumulated.consumed = some (-4) ∧
    (accumulateAll none [lateDelivery, earlyDelivery]).map Accumulated.consumed ≠
      (accumulateAll none [earlyDelivery, lateDelivery]).map Accumulated.consumed := by
  refine ⟨?_, ?_, ?_, List.Perm.swap _ _ _, ?_, ?_, ?_⟩ <;>
    norm_num [Delivery.inSlot, earlyDelivery, lateDelivery, accumulateAll, accumulate]

/-- C8 (amended): for every starting accumulated value (possibly `null`) and
every list of in-slot deliveries whose quantities all carry the same `since`,
folding `accumulate` over any permutation of the list yields the same final
`consumed` value. -/
theorem accumulateAll_perm_same_since (a : Option Accumulated) (s : ℚ)
    (ds ds' : List Delivery) (h : ∀ d ∈ ds, d.inSlot ∧ d.qty.since = s)
    (hp : ds'.Perm ds) :
    (accumulateAll a ds').map Accumulated.consumed =
      (accumulateAll a ds).map Accumulated.consumed := by
  have h' : ∀ d ∈ ds', d.inSlot ∧ d.qty.since = s := fun d hd => h d (hp.mem_iff.mp hd)
  cases ds with
  | nil => rw [List.Perm.eq_nil hp]
  | cons d ds =>
    cases ds' with
    | nil => exact absurd hp.symm.eq_nil (List.cons_ne_nil d ds)
    | cons d' ds' =>
      rw [accumulateAll_consumed_same_since s ds a d h,
        accumulateAll_consumed_same_since s ds' a d' h']

theorem accumulateAll_perm_same_since_witness :
    (accumulateAll (some ⟨7, 2, 0⟩)
        [⟨⟨5, 3⟩, 3, 3, 0, 10⟩, ⟨⟨1, 3⟩, 3, 3, 0, 10⟩]).map Accumulated.consumed =
      (accumulateAll (some ⟨7, 2, 0⟩)
        [⟨⟨1, 3⟩, 3, 3, 0, 10⟩, ⟨⟨5, 3⟩, 3, 3, 0, 10⟩]).map Accumulated.consumed :=
  accumulateAll_perm_same_since (some ⟨7, 2, 0⟩) 3
    [⟨⟨1, 3⟩, 3, 3, 0, 10⟩, ⟨⟨5, 3⟩, 3, 3, 0, 10⟩]
    [⟨⟨5, 3⟩, 3, 3, 0, 10⟩, ⟨⟨1, 3⟩, 3, 3, 0, 10⟩]
    (by
      intro d hd
      simp only [List.mem_cons, List.mem_singleton, List.not_mem_nil, or_false] at hd
      rcases hd with rfl | rfl <;> norm_num [Delivery.inSlot])
    (List.Perm.swap _ _ _)

/-- C10: for a non-empty list of in-slot deliveries with non-decreasing
`since`, folding `accumulate` from `null` yields `consumed` equal to the sum
over consecutive quantities of `q_i.consuming * (q_{i+1}.since - q_i.since)`,
and the `consuming` and `since` of the last quantity. -/
theorem accumulateAll_integral (d : Delivery) (ds : List Delivery)
    (hslot : ∀ x ∈ d :: ds, x.inSlot)
    (_hsorted : ((d :: ds).map fun x => x.qty.since).Sorted (· ≤ ·)) :
    accumulateAll none (d :: ds) =
      some { consumed := integral ((d :: ds).map Delivery.qty)
             consuming := ((d :: ds).getLast (List.cons_ne_nil d ds)).qty.consuming
             since := ((d :: ds).getLast (List.cons_ne_nil d ds)).qty.since } := by
  have hd : d.inSlot := hslot d (List.mem_cons_self d _)
  cases ds with
  | nil => simp [accumulateAll_cons, accumulate_some_of_inSlot _ d hd, accumulateAll, integral]
  | cons e es =>
    have hes : ∀ x ∈ e :: es, x.inSlot := fun x hx => hslot x (List.mem_cons_of_mem d hx)
    rw [accumulateAll_cons, accumulate_some_of_inSlot _ d hd, accumulateAll_some_eq es _ e hes]
    simp

theorem accumulateAll_integral_witness :
    accumulateAll none [earlyDelivery, lateDelivery, ⟨⟨0, 7⟩, 7, 7, 0, 10⟩] =
      some { consumed := 1 * (3 - 1) + (2 * (7 - 3) + 0), consuming := 0, since := 7 } := by
  have h := accumulateAll_integral earlyDelivery [lateDelivery, ⟨⟨0, 7⟩, 7, 7, 0, 10⟩]
    (by
      intro x hx
      simp only [List.mem_cons, List.mem_singleton, List.not_mem_nil, or_false] at hx
      rcases hx with rfl | rfl | rfl <;>
        norm_num [Delivery.inSlot, earlyDelivery, lateDelivery])
    (by norm_num [earlyDelivery, lateDelivery])
  simpa [integral, earlyDelivery, lateDelivery] using h

/-! ## Folding `aggregate` -/

/-- The identity behind the order independence of `aggregate`: both orders
charge the starting rate `R` until the latest of the three times and each
net contribution from its own time until then. -/
theorem consumed_comm (C R S d₁ s₁ d₂ s₂ : ℚ) :
    d₂ * max 0 (max S s₁ - s₂) + (d₁ + R) * max 0 (s₂ - max S s₁)
        + (d₁ * max 0 (S - s₁) + R * max 0 (s₁ - S) + C)
      = d₁ * max 0 (max S s₂ - s₁) + (d₂ + R) * max 0 (s₁ - max S s₂)
        + (d₂ * max 0 (S - s₂) + R * max 0 (s₂ - S) + C) := by
  simp only [max_def]
  split_ifs <;>
    first
      | (exfalso; linarith)
      | ring1
      | (have e₁ : s₁ = S := by linarith
         have e₂ : s₂ = S := by linarith
         rw [e₁, e₂]; ring1)
      | (have e : s₁ = S := by linarith
         rw [e]; ring1)
      | (have e : s₂ = S := by linarith
         rw [e]; ring1)
      | (have e : s₁ = s₂ := by linarith
         rw [e]; ring1)

theorem aggregate_comm (a p₁ p₂ : Option Accumulated) (c₁ c₂ : Accumulated) :
    aggregate (some (aggregate a p₁ c₁)) p₂ c₂ =
      aggregate (some (aggregate a p₂ c₂)) p₁ c₁ := by
  cases a with
  | none =>
    simp only [aggregate, Accumulated.mk.injEq]
    refine ⟨?_, by ring, max_comm _ _⟩
    ring
  | some a =>
    simp only [aggregate, Accumulated.mk.injEq]
    exact ⟨consumed_comm _ _ _ _ _ _ _, by ring, sup_right_comm _ _ _⟩

/-- C9: `aggregate` is order-independent.  Applying two instance updates to a
previous aggregate (possibly `null`) in either order gives the same
`consumed`, `consuming` and `since`; hence folding `aggregate` over any
permutation of a list of instance updates gives the same final aggregate. -/
theorem aggregate_order_independent (a p₁ p₂ : Option Accumulated) (c₁ c₂ : Accumulated)
    (us us' : List Update) (hp : us'.Perm us) :
    aggregate (some (aggregate a p₁ c₁)) p₂ c₂ =
        aggregate (some (aggregate a p₂ c₂)) p₁ c₁ ∧
    aggregateAll a us' = aggregateAll a us := by
  refine ⟨aggregate_comm a p₁ p₂ c₁ c₂, ?_⟩
  unfold aggregateAll
  exact hp.foldl_eq' (fun u _ v _ b => congrArg some (aggregate_comm b u.prev v.prev u.curr v.curr)) a

theorem aggregate_order_independent_witness :
    aggregate (some (aggregate (some ⟨4, 1, 2⟩) none ⟨0, 3, 5⟩)) (some ⟨0, 1, 0⟩) ⟨9, 2, 1⟩ =
        aggregate (some (aggregate (some ⟨4, 1, 2⟩) (some ⟨0, 1, 0⟩) ⟨9, 2, 1⟩)) none ⟨0, 3, 5⟩ ∧
    aggregateAll (some ⟨4, 1, 2⟩) [⟨some ⟨0, 1, 0⟩, ⟨9, 2, 1⟩⟩, ⟨none, ⟨0, 3, 5⟩⟩] =
      aggregateAll (some ⟨4, 1, 2⟩) [⟨none, ⟨0, 3, 5⟩⟩, ⟨some ⟨0, 1, 0⟩, ⟨9, 2, 1⟩⟩] :=
  aggregate_order_independent (some ⟨4, 1, 2⟩) none (some ⟨0, 1, 0⟩) ⟨0, 3, 5⟩ ⟨9, 2, 1⟩
    [⟨none, ⟨0, 3, 5⟩⟩, ⟨some ⟨0, 1, 0⟩, ⟨9, 2, 1⟩⟩]
    [⟨some ⟨0, 1, 0⟩, ⟨9, 2, 1⟩⟩, ⟨none, ⟨0, 3, 5⟩⟩]
    (List.Perm.swap _ _ _)

/-! ## `summarize` over time -/

/-- C11: for a fixed value with `consuming ≥ 0` (or `null`), `summarize` is
non-decreasing in the time `t`. -/
theorem summarize_mono (qty : Option Accumulated) (from_ to_ t₁ t₂ : ℚ)
    (hq : ∀ q, qty = some q → 0 ≤ q.consuming) (ht : t₁ ≤ t₂) :
    summarize t₁ qty from_ to_ ≤ summarize t₂ qty from_ to_ := by
  cases qty with
  | none => exact le_refl _
  | some q =>
    have hc : 0 ≤ q.consuming := hq q rfl
    have hm : max 0 (min t₁ to_ - q.since) ≤ max 0 (min t₂ to_ - q.since) :=
      max_le_max (le_refl 0) (sub_le_sub_right (min_le_min_right to_ ht) q.since)
    simp only [summarize]
    exact div_le_div_of_nonneg_right
      (add_le_add_right (mul_le_mul_of_nonneg_left hm hc) q.consumed) (by norm_num)

theorem summarize_mono_witness :
    summarize 5 (some ⟨4, 2, 1⟩) 0 10 ≤ summarize 8 (some ⟨4, 2, 1⟩) 0 10 :=
  summarize_mono (some ⟨4, 2, 1⟩) 0 10 5 8
    (by
      intro q hq
      cases hq
      norm_num)
    (by norm_num)

/-- C20: `summarize` of a non-null value is capped at the window end
(`summarize t = summarize to` for every `t ≥ to`) and floored at the start of
the value (`summarize t = consumed / 3600000` for every `t ≤ since`), whatever
the sign of `consuming`. -/
theorem summarize_capped_floored (qty : Accumulated) (from_ to_ : ℚ) :
    (∀ t, to_ ≤ t → summarize t (some qty) from_ to_ = summarize to_ (some qty) from_ to_) ∧
    (∀ t, t ≤ qty.since → summarize t (some qty) from_ to_ = qty.consumed / 3600000) := by
  constructor
  · intro t ht
    simp only [summarize, min_eq_right ht, min_self]
  · intro t ht
    have h : min t to_ - qty.since ≤ 0 := sub_nonpos.mpr (le_trans (min_le_left t to_) ht)
    simp only [summarize, max_eq_left h, mul_zero, zero_add]

theorem summarize_capped_floored_witness :
    summarize 25 (some ⟨4, -2, 1⟩) 0 10 = summarize 10 (some ⟨4, -2, 1⟩) 0 10 ∧
    summarize (1 / 2) (some ⟨4, -2, 1⟩) 0 10 = 4 / 3600000 :=
  ⟨(summarize_capped_floored ⟨4, -2, 1⟩ 0 10).1 25 (by norm_num),
   (summarize_capped_floored ⟨4, -2, 1⟩ 0 10).2 (1 / 2) (by norm_num)⟩

/-- C14: scenario A end to end.  For a window with `from ≤ end < to` that
reaches one hour past the start of the usage, summarizing the first
accumulation of `meter m` one hour after `m.start` gives `(meter m).consuming`;
for 536870912 bytes and one running instance starting at `t0` this is `0.5`. -/
theorem scenario_one_hour (m : Measured) (t0 start end_ from_ to_ : ℚ)
    (h₁ : from_ ≤ end_) (h₂ : end_ < to_)
    (h₃ : m.start + 3600000 ≤ to_) (h₄ : t0 + 3600000 ≤ to_) :
    summarize (m.start + 3600000) (accumulate none (meter m) start end_ from_ to_) from_ to_
        = (meter m).consuming ∧
    summarize (t0 + 3600000)
        (accumulate none
          (meter { instance_memory := 536870912, running_instances := 1, start := t0 })
          start end_ from_ to_) from_ to_ = 1 / 2 := by
  have h : ¬ (end_ < from_ ∨ end_ ≥ to_) := by
    rintro (h | h)
    · exact absurd h₁ (not_le.mpr h)
    · exact absurd h₂ (not_lt.mpr h)
  constructor
  · simp only [accumulate, h, if_false, summarize, meter, min_eq_left h₃]
    norm_num
  · simp only [accumulate, h, if_false, summarize, meter, min_eq_left h₄]
    norm_num

theorem scenario_one_hour_witness :
    summarize (1000 + 3600000) (accumulate none (meter ⟨2147483648, 3, 1000⟩) 1000 1000 0 86400000)
        0 86400000 = (meter ⟨2147483648, 3, 1000⟩).consuming ∧
    summarize (2000 + 3600000) (accumulate none (meter ⟨536870912, 1, 2000⟩) 1000 1000 0 86400000)
        0 86400000 = 1 / 2 :=
  scenario_one_hour ⟨2147483648, 3, 1000⟩ 2000 1000 1000 0 86400000
    (by norm_num) (by norm_num) (by norm_num) (by norm_num)

/-! ## Redelivery -/

/-- C19: `accumulate` is idempotent under redelivery.  Inside the slot,
accumulating the same quantity a second time on top of the first result gives
the first result again, in all three fields. -/
theorem accumulate_idempotent (a : Option Accumulated) (qty : Metered)
    (start end_ from_ to_ : ℚ) (h₁ : from_ ≤ end_) (h₂ : end_ < to_) :
    accumulate (accumulate a qty start end_ from_ to_) qty start end_ from_ to_ =
      accumulate a qty start end_ from_ to_ := by
  have h : ¬ (end_ < from_ ∨ end_ ≥ to_) := by
    rintro (h | h)
    · exact absurd h₁ (not_le.mpr h)
    · exact absurd h₂ (not_lt.mpr h)
  simp [accumulate, h]

theorem accumulate_idempotent_witness :
    accumulate (accumulate (some ⟨7, 2, 100⟩) ⟨3, 130⟩ 0 5 0 10) ⟨3, 130⟩ 0 5 0 10 =
      accumulate (some ⟨7, 2, 100⟩) ⟨3, 130⟩ 0 5 0 10 :=
  accumulate_idempotent (some ⟨7, 2, 100⟩) ⟨3, 130⟩ 0 5 0 10 (by norm_num) (by norm_num)

theorem aggregate_consuming_eq (a prev : Option Accumulated) (curr : Accumulated) :
    (aggregate a prev curr).consuming =
      delta prev curr + (match a with
        | some a => a.consuming
        | none => 0) := by
  cases a <;> simp [aggregate, delta]

/-- C15: updating one instance does not double count.  Aggregating a value
`v₁` of an instance with prior value `null` and then its next value `v₂` with
prior value `v₁` yields `consuming = a.consuming + v₂.consuming` on a non-null
previous aggregate `a`, and `consuming = v₂.consuming` on `null`. -/
theorem aggregate_update_no_double_count (v₁ v₂ : Accumulated) :
    (∀ a : Accumulated,
      (aggregate (some (aggregate (some a) none v₁)) (some v₁) v₂).consuming
        = a.consuming + v₂.consuming) ∧
    (aggregate (some (aggregate none none v₁)) (some v₁) v₂).consuming = v₂.consuming := by
  constructor
  · intro a
    simp only [aggregate]
    ring
  · simp only [aggregate]
    ring

/-- C16: `aggregate` is not idempotent under duplicate delivery.  When the net
contribution `delta` of an update is non-zero, applying the update a second
time raises `consuming` by `delta` again, so the result differs from applying
it once; and such inputs exist. -/
theorem aggregate_not_idempotent (a prev : Option Accumulated) (curr : Accumulated)
    (h : delta prev curr ≠ 0) :
    (aggregate (some (aggregate a prev curr)) prev curr).consuming
        = (aggregate a prev curr).consuming + delta prev curr ∧
    aggregate (some (aggregate a prev curr)) prev curr ≠ aggregate a prev curr ∧
    ∃ (a' p' : Option Accumulated) (c' : Accumulated),
      aggregate (some (aggregate a' p' c')) p' c' ≠ aggregate a' p' c' := by
  have hc : (aggregate (some (aggregate a prev curr)) prev curr).consuming
      = (aggregate a prev curr).consuming + delta prev curr := by
    rw [aggregate_consuming_eq (some (aggregate a prev curr)) prev curr]
    ring
  have hne : aggregate (some (aggregate a prev curr)) prev curr ≠ aggregate a prev curr := by
    intro he
    rw [he] at hc
    exact h (by linarith)
  exact ⟨hc, hne, a, prev, curr, hne⟩

theorem aggregate_not_idempotent_witness :
    (aggregate (some (aggregate (some ⟨4, 1, 2⟩) none ⟨0, 3, 5⟩)) none ⟨0, 3, 5⟩).consuming
        = (aggregate (some ⟨4, 1, 2⟩) none ⟨0, 3, 5⟩).consuming + delta none ⟨0, 3, 5⟩ ∧
    aggregate (some (aggregate (some ⟨4, 1, 2⟩) none ⟨0, 3, 5⟩)) none ⟨0, 3, 5⟩
        ≠ aggregate (some ⟨4, 1, 2⟩) none ⟨0, 3, 5⟩ ∧
    ∃ (a' p' : Option Accumulated) (c' : Accumulated),
      aggregate (some (aggregate a' p' c')) p' c' ≠ aggregate a' p' c' :=
  aggregate_not_idempotent (some ⟨4, 1, 2⟩) none ⟨0, 3, 5⟩ (by norm_num [delta])

/-! ## Aggregating instances that report for the first time -/

theorem aggregateAll_cons (a : Option Accumulated) (u : Update) (us : List Update) :
    aggregateAll a (u :: us) = aggregateAll (some (aggregate a u.prev u.curr)) us := rfl

theorem aggregateAll_first_consuming (vs : List Accumulated) :
    ∀ a : Accumulated,
      (aggregateAll (some a) (vs.map Update.first)).map Accumulated.consuming =
        some (a.consuming + (vs.map Accumulated.consuming).sum) := by
  induction vs with
  | nil => intro a; simp [aggregateAll]
  | cons v vs ih =>
    intro a
    rw [List.map_cons, aggregateAll_cons, ih]
    simp only [Update.first, aggregate, List.map_cons, List.sum_cons, sub_zero]
    congr 1
    ring

/-- C12: folding `aggregate` from `null` over a non-empty list of instances
that report for the first time (prior value `null`) yields the sum of their
rates as `consuming`; a single instance metered from 536870912 bytes and one
running instance aggregates to `0.5`, two instances of rate `0.5` to `1`. -/
theorem aggregateAll_first_sum (v : Accumulated) (vs : List Accumulated)
    (t0 start end_ from_ to_ : ℚ) (h₁ : from_ ≤ end_) (h₂ : end_ < to_) (c₁ c₂ : Accumulated)
    (hc₁ : c₁.consuming = 1 / 2) (hc₂ : c₂.consuming = 1 / 2) :
    (aggregateAll none ((v :: vs).map Update.first)).map Accumulated.consuming =
        some ((v :: vs).map Accumulated.consuming).sum ∧
    (aggregateAll none
        (((accumulate none
            (meter { instance_memory := 536870912, running_instances := 1, start := t0 })
            start end_ from_ to_).toList).map Update.first)).map Accumulated.consuming
        = some (1 / 2) ∧
    (aggregateAll none [Update.first c₁, Update.first c₂]).map Accumulated.consuming = some 1 := by
  have h : ¬ (end_ < from_ ∨ end_ ≥ to_) := by
    rintro (h | h)
    · exact absurd h₁ (not_le.mpr h)
    · exact absurd h₂ (not_lt.mpr h)
  have hgen : ∀ (w : Accumulated) (ws : List Accumulated),
      (aggregateAll none ((w :: ws).map Update.first)).map Accumulated.consuming =
        some ((w :: ws).map Accumulated.consuming).sum := by
    intro w ws
    rw [List.map_cons, aggregateAll_cons, aggregateAll_first_consuming]
    simp [Update.first, aggregate]
  have hm : (meter { instance_memory := 536870912, running_instances := 1, start := t0 }).consuming
      = 1 / 2 := by
    simp only [meter]
    norm_num
  have he : ∀ q : Metered, accumulate none q start end_ from_ to_ =
      some { consumed := 0, consuming := q.consuming, since := q.since } := by
    intro q
    simp [accumulate, h]
  refine ⟨hgen v vs, ?_, ?_⟩
  · rw [he, Option.toList_some, hgen]
    simp only [List.map_cons, List.map_nil, List.sum_cons, List.sum_nil, add_zero, hm]
  · have h2 := hgen c₁ [c₂]
    simp only [List.map_cons, List.map_nil, List.sum_cons, List.sum_nil, hc₁, hc₂] at h2
    rw [h2]
    norm_num

theorem aggregateAll_first_sum_witness :
    (aggregateAll none
        ([(⟨0, 3, 5⟩ : Accumulated), ⟨0, 1, 2⟩, ⟨0, 4, 9⟩].map Update.first)).map
          Accumulated.consuming
        = some ([(⟨0, 3, 5⟩ : Accumulated), ⟨0, 1, 2⟩, ⟨0, 4, 9⟩].map Accumulated.consuming).sum ∧
    (aggregateAll none
        (((accumulate none (meter ⟨536870912, 1, 1000⟩) 1000 1000 0 86400000).toList).map
          Update.first)).map Accumulated.consuming = some (1 / 2) ∧
    (aggregateAll none
        [Update.first ⟨0, 1 / 2, 1000⟩, Update.first ⟨0, 1 / 2, 1000⟩]).map
          Accumulated.consuming = some 1 :=
  aggregateAll_first_sum ⟨0, 3, 5⟩ [⟨0, 1, 2⟩, ⟨0, 4, 9⟩] 1000 1000 1000 0 86400000
    (by norm_num) (by norm_num) ⟨0, 1 / 2, 1000⟩ ⟨0, 1 / 2, 1000⟩ rfl rfl

/-- Aggregating a first report `c` into `a`, seen from a time `m` that is not
before either of them: the value projected to `m` grows by the projection of
`c`, and the new `since` is not after `m`. -/
theorem aggregate_first_projected (a c : Accumulated) (m : ℚ)
    (ha : a.since ≤ m) (hc : c.since ≤ m) :
    (aggregate (some a) none c).since ≤ m ∧
    (aggregate (some a) none c).consuming * (m - (aggregate (some a) none c).since)
        + (aggregate (some a) none c).consumed
      = a.consuming * (m - a.since) + a.consumed + c.consuming * (m - c.since) := by
  simp only [aggregate, sub_zero]
  refine ⟨max_le ha hc, ?_⟩
  rcases le_total a.since c.since with h | h
  · rw [max_eq_right h, max_eq_left (sub_nonpos.mpr h), max_eq_right (sub_nonneg.mpr h)]
    ring
  · rw [max_eq_left h, max_eq_right (sub_nonneg.mpr h), max_eq_left (sub_nonpos.mpr h)]
    ring

theorem summarize_of_since_le (t from_ to_ : ℚ) (a : Accumulated)
    (ha : a.since ≤ min t to_) :
    summarize t (some a) from_ to_ =
      (a.consuming * (min t to_ - a.since) + a.consumed) / 3600000 := by
  simp only [summarize, max_eq_right (sub_nonneg.mpr ha)]

theorem summarize_aggregateAll_first (t from_ to_ : ℚ) (vs : List Accumulated) :
    ∀ a : Accumulated, a.since ≤ min t to_ →
      (∀ v ∈ vs, v.consumed = 0 ∧ v.since ≤ min t to_) →
      summarize t (aggregateAll (some a) (vs.map Update.first)) from_ to_ =
        summarize t (some a) from_ to_
          + (vs.map fun v => summarize t (some v) from_ to_).sum := by
  induction vs with
  | nil => intro a _ _; simp [aggregateAll]
  | cons v vs ih =>
    intro a ha h
    obtain ⟨hv0, hvs⟩ := h v (List.mem_cons_self v vs)
    have hrest : ∀ w ∈ vs, w.consumed = 0 ∧ w.since ≤ min t to_ :=
      fun w hw => h w (List.mem_cons_of_mem v hw)
    obtain ⟨hs, hval⟩ := aggregate_first_projected a v (min t to_) ha hvs
    rw [List.map_cons, aggregateAll_cons]
    simp only [Update.first]
    rw [ih _ hs hrest, List.map_cons, List.sum_cons, summarize_of_since_le t from_ to_ _ hs,
      summarize_of_since_le t from_ to_ a ha, summarize_of_since_le t from_ to_ v hvs, hval, hv0]
    ring

theorem roundHalfUp_error (dp : ℕ) (x : ℚ) :
    |roundHalfUp dp x - x| ≤ 1 / (2 * 10 ^ dp) := by
  have hp : (0 : ℚ) < 10 ^ dp := by positivity
  have key : ∀ y : ℚ, |(⌊y * 10 ^ dp + 1 / 2⌋ : ℚ) / 10 ^ dp - y| ≤ 1 / (2 * 10 ^ dp) := by
    intro y
    have h1 := Int.floor_le (y * 10 ^ dp + 1 / 2)
    have h2 := Int.lt_floor_add_one (y * 10 ^ dp + 1 / 2)
    have e : (⌊y * 10 ^ dp + 1 / 2⌋ : ℚ) / 10 ^ dp - y
        = ((⌊y * 10 ^ dp + 1 / 2⌋ : ℚ) - y * 10 ^ dp) / 10 ^ dp := by
      rw [sub_div, mul_div_cancel_right₀ _ hp.ne']
    have h3 : |(⌊y * 10 ^ dp + 1 / 2⌋ : ℚ) - y * 10 ^ dp| ≤ 1 / 2 := by
      rw [abs_le]
      constructor <;> linarith
    rw [e, abs_div, abs_of_pos hp]
    calc |(⌊y * 10 ^ dp + 1 / 2⌋ : ℚ) - y * 10 ^ dp| / 10 ^ dp
        ≤ (1 / 2) / 10 ^ dp := div_le_div_of_nonneg_right h3 hp.le
      _ = 1 / (2 * 10 ^ dp) := by rw [div_div]
  unfold roundHalfUp
  split_ifs with h
  · exact key x
  · have := key (-x)
    rw [show -((⌊-x * 10 ^ dp + 1 / 2⌋ : ℚ) / 10 ^ dp) - x
        = -((⌊-x * 10 ^ dp + 1 / 2⌋ : ℚ) / 10 ^ dp - -x) by ring, abs_neg]
    exact this

theorem div20_error (x : ℚ) : |div20 x 3600000 - x / 3600000| ≤ 1 / (2 * 10 ^ 20) :=
  roundHalfUp_error 20 (x / 3600000)

/-- In exact arithmetic, `summarize` of the fold of first reports from `null`
is the sum of the `summarize` of the reports. -/
theorem summarize_aggregateAll_none_first (s from_ to_ : ℚ) (ws : List Accumulated)
    (hws : ∀ v ∈ ws, v.consumed = 0 ∧ v.since ≤ min s to_) :
    summarize s (aggregateAll none (ws.map Update.first)) from_ to_ =
      (ws.map fun v => summarize s (some v) from_ to_).sum := by
  cases ws with
  | nil => simp [aggregateAll, summarize]
  | cons w ws =>
    obtain ⟨hw0, hw⟩ := hws w (List.mem_cons_self w ws)
    have hrest : ∀ v ∈ ws, v.consumed = 0 ∧ v.since ≤ min s to_ :=
      fun v hv => hws v (List.mem_cons_of_mem w hv)
    have hfirst : aggregate none none w = w := by
      cases w
      simp only [aggregate, sub_zero] at hw0 ⊢
      simp only [hw0]
    rw [List.map_cons, aggregateAll_cons]
    simp only [Update.first]
    rw [hfirst, summarize_aggregateAll_first s from_ to_ ws w hw hrest, List.map_cons,
      List.sum_cons]

theorem summarizeWith_sub_summarize (div : ℚ → ℚ → ℚ) (ε : ℚ)
    (hε : ∀ x, |div x 3600000 - x / 3600000| ≤ ε) (t from_ to_ : ℚ)
    (qty : Option Accumulated) :
    |summarizeWith div t qty from_ to_ - summarize t qty from_ to_| ≤ ε := by
  cases qty with
  | none =>
    simp only [summarizeWith, summarize, sub_self, abs_zero]
    exact le_trans (abs_nonneg _) (hε 0)
  | some q => exact hε _

theorem sum_summarizeWith_sub_sum (div : ℚ → ℚ → ℚ) (ε : ℚ)
    (hε : ∀ x, |div x 3600000 - x / 3600000| ≤ ε) (t from_ to_ : ℚ)
    (vs : List Accumulated) :
    |(vs.map fun v => summarizeWith div t (some v) from_ to_).sum
        - (vs.map fun v => summarize t (some v) from_ to_).sum| ≤ vs.length * ε := by
  induction vs with
  | nil => simp
  | cons v vs ih =>
    have hv := summarizeWith_sub_summarize div ε hε t from_ to_ (some v)
    simp only [List.map_cons, List.sum_cons, List.length_cons, Nat.cast_add, Nat.cast_one]
    rw [abs_le] at hv ih ⊢
    constructor <;> nlinarith [hv.1, hv.2, ih.1, ih.2]

/-- C13 (as stated, refuted): with the division rounding to 20 decimals, three
instances of rate 1 since time 0, read at `t = 1` in the window `[0, 10)`.
The aggregate summarizes to `3 / 3600000` rounded, `0.00000083333333333333`;
each instance summarizes to `1 / 3600000` rounded, `0.00000027777777777778`,
and three of them add up to `0.00000083333333333334`. -/
theorem summarize_aggregate_not_exact :
    (∀ v ∈ threeUnitInstances, v.consumed = 0 ∧ v.since ≤ min 1 10) ∧
    summarizeWith div20 1 (aggregateAll none (threeUnitInstances.map Update.first)) 0 10
      = 83333333333333 / 10 ^ 20 ∧
    (threeUnitInstances.map fun v => summarizeWith div20 1 (some v) 0 10).sum
      = 83333333333334 / 10 ^ 20 ∧
    summarizeWith div20 1 (aggregateAll none (threeUnitInstances.map Update.first)) 0 10
      ≠ (threeUnitInstances.map fun v => summarizeWith div20 1 (some v) 0 10).sum := by
  have hA : summarizeWith div20 1 (aggregateAll none (threeUnitInstances.map Update.first)) 0 10
      = 83333333333333 / 10 ^ 20 := by
    norm_num [threeUnitInstances, aggregateAll, aggregate, Update.first, summarizeWith, div20,
      roundHalfUp]
  have hS : (threeUnitInstances.map fun v => summarizeWith div20 1 (some v) 0 10).sum
      = 83333333333334 / 10 ^ 20 := by
    norm_num [threeUnitInstances, summarizeWith, div20, roundHalfUp]
  refine ⟨?_, hA, hS, ?_⟩
  · intro v hv
    simp only [threeUnitInstances, List.mem_cons, List.mem_singleton, List.not_mem_nil,
      or_false, or_self] at hv
    subst hv
    norm_num
  · rw [hA, hS]
    norm_num

/-- C13 (amended): `summarize` distributes over aggregation within arithmetic
tolerance.  For first-time instance values with `consumed = 0`, none starting
after `min t to`, folded with prior value `null` in any order: when the
closing division returns every quotient with an error of at most `ε`,
`summarize` of the folded aggregate and the sum of the `summarize` of the
`n` instances differ by at most `(n + 1) * ε`; in exact arithmetic they are
equal; and with the division rounding to 20 decimals two instances of rate
`0.5` since `t0` summarize to exactly `1` one hour later when the window
reaches that far. -/
theorem summarize_aggregate_distrib (div : ℚ → ℚ → ℚ) (ε t from_ to_ t0 : ℚ)
    (vs vs' : List Accumulated) (hp : vs'.Perm vs)
    (h : ∀ v ∈ vs, v.consumed = 0 ∧ v.since ≤ min t to_)
    (hε : ∀ x, |div x 3600000 - x / 3600000| ≤ ε) (hto : t0 + 3600000 ≤ to_) :
    |summarizeWith div t (aggregateAll none (vs'.map Update.first)) from_ to_
        - (vs.map fun v => summarizeWith div t (some v) from_ to_).sum|
      ≤ (vs.length + 1) * ε ∧
    summarize t (aggregateAll none (vs'.map Update.first)) from_ to_ =
        (vs.map fun v => summarize t (some v) from_ to_).sum ∧
    summarizeWith div20 (t0 + 3600000)
        (aggregateAll none [Update.first ⟨0, 1 / 2, t0⟩, Update.first ⟨0, 1 / 2, t0⟩])
        from_ to_ = 1 := by
  have hexact : summarize t (aggregateAll none (vs'.map Update.first)) from_ to_ =
      (vs.map fun v => summarize t (some v) from_ to_).sum := by
    rw [summarize_aggregateAll_none_first t from_ to_ vs'
      (fun v hv => h v (hp.mem_iff.mp hv))]
    exact (hp.map _).sum_eq
  refine ⟨?_, hexact, ?_⟩
  · have hA := summarizeWith_sub_summarize div ε hε t from_ to_
      (aggregateAll none (vs'.map Update.first))
    have hS := sum_summarizeWith_sub_sum div ε hε t from_ to_ vs
    rw [hexact] at hA
    rw [abs_le] at hA hS ⊢
    constructor <;> nlinarith [hA.1, hA.2, hS.1, hS.2]
  · have e : t0 + 3600000 - t0 = 3600000 := by ring
    norm_num [aggregateAll, aggregate, Update.first, summarizeWith, div20, roundHalfUp,
      min_eq_left hto, e]

theorem summarize_aggregate_distrib_witness :
    |summarizeWith div20 7200000
          (aggregateAll none ([(⟨0, 1, 2⟩ : Accumulated), ⟨0, 3, 5⟩].map Update.first))
          0 86400000
        - ([(⟨0, 3, 5⟩ : Accumulated), ⟨0, 1, 2⟩].map fun v =>
            summarizeWith div20 7200000 (some v) 0 86400000).sum|
      ≤ (([(⟨0, 3, 5⟩ : Accumulated), ⟨0, 1, 2⟩].length : ℚ) + 1) * (1 / (2 * 10 ^ 20)) ∧
    summarize 7200000
        (aggregateAll none ([(⟨0, 1, 2⟩ : Accumulated), ⟨0, 3, 5⟩].map Update.first))
        0 86400000 =
      ([(⟨0, 3, 5⟩ : Accumulated), ⟨0, 1, 2⟩].map fun v =>
        summarize 7200000 (some v) 0 86400000).sum ∧
    summarizeWith div20 (0 + 3600000)
        (aggregateAll none [Update.first ⟨0, 1 / 2, 0⟩, Update.first ⟨0, 1 / 2, 0⟩])
        0 86400000 = 1 :=
  summarize_aggregate_distrib div20 (1 / (2 * 10 ^ 20)) 7200000 0 86400000 0
    [⟨0, 3, 5⟩, ⟨0, 1, 2⟩] [⟨0, 1, 2⟩, ⟨0, 3, 5⟩]
    (List.Perm.swap _ _ _)
    (by
      intro v hv
      simp only [List.mem_cons, List.mem_singleton, List.not_mem_nil, or_false] at hv
      rcases hv with rfl | rfl <;> norm_num)
    div20_error
    (by norm_num)

/-! ## Pricing -/

/-- C17: in the pricing data of `linux-container` the lookup of plan `basic`,
metric `memory`, country `USA` finds exactly one entry, of price `0.1375`; the
charge of a quantity `1` at that price is `0.1375`; and every country of every
plan of the document is priced `0.1375`. -/
theorem linux_container_price :
    priceEntries linux_container "basic" "memory" "USA" = [⟨"USA", 0.1375⟩] ∧
    (priceEntries linux_container "basic" "memory" "USA").map (fun e => charge e.price 1)
      = [0.1375] ∧
    (linux_container.plans.flatMap fun p =>
        p.metrics.flatMap fun m => m.prices.map Price.price)
      = [0.1375, 0.1375, 0.1375, 0.1375, 0.1375, 0.1375] := by
  have h : priceEntries linux_container "basic" "memory" "USA" = [⟨"USA", 0.1375⟩] := by
    simp [priceEntries, linux_container, List.filter, List.flatMap]
  refine ⟨h, ?_, ?_⟩
  · rw [h]
    simp [charge]
  · simp [linux_container, List.flatMap]

/-! ## The window check -/

theorem isWithinWindow_iff_div (utc : ℚ → UTCDate) (start end_ : ℚ) (w : Fin 5) :
    isWithinWindow utc start end_ w = true ↔
      dateUTCNumbify utc end_ / (timescale w : ℤ)
        = dateUTCNumbify utc start / (timescale w : ℤ) := by
  simp only [isWithinWindow, decide_eq_true_eq, Rat.floor_intCast_div_natCast, sub_eq_zero]

/-- C18: for two timestamps with valid UTC fields and a window index `w`
(0 second, 1 minute, 2 hour, 3 day, 4 month), `isWithinWindow` is true exactly
when the UTC year and month agree and so does every finer field down to the
resolution `w`: day of month for `w ≤ 3`, hour for `w ≤ 2`, minute for
`w ≤ 1`, second for `w = 0`. -/
theorem isWithinWindow_iff (utc : ℚ → UTCDate) (start end_ : ℚ) (w : Fin 5)
    (hs : (utc start).valid) (he : (utc end_).valid) :
    isWithinWindow utc start end_ w = true ↔
      ((utc start).fullYear = (utc end_).fullYear ∧
       (utc start).month = (utc end_).month ∧
       (w.val ≤ 3 → (utc start).date = (utc end_).date) ∧
       (w.val ≤ 2 → (utc start).hours = (utc end_).hours) ∧
       (w.val ≤ 1 → (utc start).minutes = (utc end_).minutes) ∧
       (w.val = 0 → (utc start).seconds = (utc end_).seconds)) := by
  rw [isWithinWindow_iff_div]
  obtain ⟨hs1, hs2, hs3, hs4, hs5, hs6⟩ := hs
  obtain ⟨he1, he2, he3, he4, he5, he6⟩ := he
  simp only [dateUTCNumbify]
  generalize utc start = a at *
  generalize utc end_ = b at *
  obtain ⟨ay, am, ad, ah, ai, as⟩ := a
  obtain ⟨bY, bm, bd, bh, bi, bs⟩ := b
  simp only at *
  fin_cases w <;> simp [timescale] <;> omega

theorem firstMinuteUTC_valid (t : ℚ) : (firstMinuteUTC t).valid := by
  simp only [UTCDate.valid, firstMinuteUTC]
  omega

theorem isWithinWindow_iff_witness :
    isWithinWindow firstMinuteUTC 5000 59000 1 = true ↔
      ((firstMinuteUTC 5000).fullYear = (firstMinuteUTC 59000).fullYear ∧
       (firstMinuteUTC 5000).month = (firstMinuteUTC 59000).month ∧
       (((1 : Fin 5).val ≤ 3 → (firstMinuteUTC 5000).date = (firstMinuteUTC 59000).date)) ∧
       (((1 : Fin 5).val ≤ 2 → (firstMinuteUTC 5000).hours = (firstMinuteUTC 59000).hours)) ∧
       (((1 : Fin 5).val ≤ 1 → (firstMinuteUTC 5000).minutes = (firstMinuteUTC 59000).minutes)) ∧
       (((1 : Fin 5).val = 0 → (firstMinuteUTC 5000).seconds = (firstMinuteUTC 59000).seconds))) :=
  isWithinWindow_iff firstMinuteUTC 5000 59000 1
    (firstMinuteUTC_valid 5000) (firstMinuteUTC_valid 59000)

end Abacus
